import Mathlib

/-!
Shallow embedding of `src/main.cpp` (repository `output_counter`).

The program defines a struct `OutputCounter` holding a queue pointer, a size
`N`, and a raw device pointer `d_ptr` to a buffer of `N` unsigned counters.
Operations: the constructor (device allocation via `sycl::malloc_device`),
`free` (guarded `sycl::free` + null the handle), `pre_kernel` (a bulk parallel
kernel writing zero to each of the `N` cells), `get_counts` (a bulk parallel
copy of the device buffer into a freshly value-initialized host vector), and
`get_add_output` (a device-side atomic `fetch_add(1)` on cell `index`,
returning the prior value).  `main` builds a counter of size 4, zero-fills it,
dispatches 1024 work items each calling `get_add_output(idx % 4)`, reads the
counts back and prints them, then frees the buffer.

Modelling choices:
* a device buffer is a `List Nat` (unsigned counters; the demo never comes
  near 2^64 so no wrap occurs and `Nat` is faithful);
* device memory is an association list from pointer values (`Nat`) to live
  blocks, together with a capacity, so allocation failure and double free are
  representable;
* `nullptr` is `Option.none` in the `d_ptr` field;
* an out-of-bounds access, a use of a dangling pointer, or a faulting kernel
  is `Option.none` (undefined behavior has no defined result);
* a bulk `parallel_for` whose work items touch pairwise distinct cells is
  serialized as a fold over the work-item ids; the atomic `fetch_add` path is
  modelled by folding single indivisible read-modify-write steps over an
  arbitrary serialization schedule, which ranges over all interleavings.
-/

/-- One cell write `buf[i] = v` of a work item; out of bounds is UB (`none`). -/
def writeCell (buf : List Nat) (i v : Nat) : Option (List Nat) :=
  if i < buf.length then some (buf.set i v) else none

/-- One cell read `buf[i]` of a work item; out of bounds is UB (`none`). -/
def readCell (buf : List Nat) (i : Nat) : Option Nat :=
  buf[i]?

/-- The zero-fill kernel body of `pre_kernel`: each work item `i` in `order`
performs `k_ptr[i] = 0`.  `order` is the serialization order of the items. -/
def zeroKernel : List Nat → List Nat → Option (List Nat)
  | [], buf => some buf
  | i :: order, buf =>
    match writeCell buf i 0 with
    | some buf' => zeroKernel order buf'
    | none => none

/-- The readback kernel body of `get_counts`: each work item `i` performs
`a_counts[i] = k_ptr[i]`, reading the device buffer `buf` and writing the
host staging buffer. -/
def copyKernel (buf : List Nat) : List Nat → List Nat → Option (List Nat)
  | [], host => some host
  | i :: order, host =>
    match readCell buf i with
    | some v =>
      match writeCell host i v with
      | some host' => copyKernel buf order host'
      | none => none
    | none => none

/-- The body of `get_add_output` on the raw buffer: the single atomic
read-modify-write `fetch_add(1)` on cell `i`, returning the prior value and
the updated buffer.  Out of bounds is UB (`none`). -/
def fetch_add (buf : List Nat) (i : Nat) : Option (Nat × List Nat) :=
  match readCell buf i with
  | some v => some (v, buf.set i (v + 1))
  | none => none

/-- A set of concurrent `get_add_output` calls, as the fold of the atomic
steps over a serialization schedule `sched` (the target index of each call,
in serialization order).  Returns the final buffer and the list of values
returned to the callers, in schedule order. -/
def runIncrements : List Nat → List Nat → Option (List Nat × List Nat)
  | [], buf => some (buf, [])
  | i :: sched, buf =>
    match fetch_add buf i with
    | some (v, buf') =>
      match runIncrements sched buf' with
      | some (bufF, rets) => some (bufF, v :: rets)
      | none => none
    | none => none

/-- The values returned to the callers that targeted index `i`: the entries of
`rets` at the positions where `sched` is `i`. -/
def retsFor (i : Nat) : List Nat → List Nat → List Nat
  | s :: sched, r :: rets =>
    if s = i then r :: retsFor i sched rets else retsFor i sched rets
  | _, _ => []

/-- Device memory: the capacity of the device allocator and the association
list of live allocations (pointer value ↦ block contents). -/
structure Device where
  capacity : Nat
  mem : List (Nat × List Nat)
deriving Repr, DecidableEq

/-- Look a pointer up among the live allocations. -/
def memLookup : List (Nat × List Nat) → Nat → Option (List Nat)
  | [], _ => none
  | (q, b) :: rest, p => if p = q then some b else memLookup rest p

/-- Replace the block a live pointer points to. -/
def memUpdate : List (Nat × List Nat) → Nat → List Nat → List (Nat × List Nat)
  | [], _, _ => []
  | (q, b) :: rest, p, nb =>
    if q = p then (q, nb) :: rest else (q, b) :: memUpdate rest p nb

/-- Remove a pointer from the live allocations. -/
def memRemove : List (Nat × List Nat) → Nat → List (Nat × List Nat)
  | [], _ => []
  | (q, b) :: rest, p =>
    if q = p then memRemove rest p else (q, b) :: memRemove rest p

/-- Bytes (in units of one cell) currently allocated on the device. -/
def devUsed (dev : Device) : Nat :=
  (dev.mem.map (fun pb => pb.2.length)).sum

/-- A pointer value distinct from every live pointer. -/
def freshPtr (dev : Device) : Nat :=
  (dev.mem.map Prod.fst).foldr max 0 + 1

/-- Force a list to length `n` (the unspecified contents of a fresh
allocation are supplied by the caller as `junk`). -/
def padTo (n : Nat) (l : List Nat) : List Nat :=
  (l ++ List.replicate n 0).take n

/-- Errors surfaced by the SYCL runtime. -/
inductive SyclError where
  | AllocationError
deriving Repr, DecidableEq

/-- `sycl::malloc_device` (external runtime, modelled): allocates `n` cells at
a fresh pointer when the device can satisfy the request, and fails with an
allocation error when it cannot; the contents of the fresh block are
unspecified, supplied here as `junk`. -/
def malloc_device (dev : Device) (n : Nat) (junk : List Nat) :
    Except SyclError (Nat × Device) :=
  if devUsed dev + n ≤ dev.capacity then
    .ok (freshPtr dev, { dev with mem := dev.mem ++ [(freshPtr dev, padTo n junk)] })
  else
    .error .AllocationError

/-- `sycl::free` (external runtime, modelled): frees a live allocation;
freeing a pointer that is not live is UB (`none`). -/
def sycl_free (dev : Device) (p : Nat) : Option Device :=
  match memLookup dev.mem p with
  | some _ => some { dev with mem := memRemove dev.mem p }
  | none => none

/-- The `OutputCounter` struct of `src/main.cpp`: a non-owning queue pointer
(modelled as an id), the cell count `N`, and the raw device pointer `d_ptr`
(`none` models `nullptr`). -/
structure OutputCounter where
  queue : Nat
  N : Nat
  d_ptr : Option Nat
deriving Repr, DecidableEq

/-- The constructor `OutputCounter(queue, N)`: stores the queue pointer and
`N`, and sets `d_ptr` to the result of `sycl::malloc_device(N * sizeof(size_t))`.
It performs no error handling of its own, so an allocation failure propagates
to the caller. -/
def OutputCounter.construct (qid : Nat) (N : Nat) (dev : Device)
    (junk : List Nat) : Except SyclError (OutputCounter × Device) :=
  match malloc_device dev N junk with
  | .ok (p, dev') => .ok ({ queue := qid, N := N, d_ptr := some p }, dev')
  | .error e => .error e

/-- `OutputCounter::free`: if `d_ptr != nullptr`, call `sycl::free` and set
`d_ptr = nullptr`; otherwise do nothing. -/
def OutputCounter.free (c : OutputCounter) (dev : Device) :
    Option (OutputCounter × Device) :=
  match c.d_ptr with
  | none => some (c, dev)
  | some p =>
    match sycl_free dev p with
    | some dev' => some ({ c with d_ptr := none }, dev')
    | none => none

/-- `OutputCounter::pre_kernel`: submit a `parallel_for` over `range(N)` whose
work item `idx` performs `k_ptr[idx] = 0`, and wait.  Dereferencing a null or
dangling `d_ptr` is UB (`none`). -/
def OutputCounter.pre_kernel (c : OutputCounter) (dev : Device) :
    Option (OutputCounter × Device) :=
  match c.d_ptr with
  | none => none
  | some p =>
    match memLookup dev.mem p with
    | none => none
    | some buf =>
      match zeroKernel (List.range c.N) buf with
      | some buf' => some (c, { dev with mem := memUpdate dev.mem p buf' })
      | none => none

/-- `OutputCounter::get_counts`: build `host_counts` as a value-initialized
vector of size `N` (all zeros), submit a `parallel_for` over `range(N)` whose
work item `idx` performs `a_counts[idx] = k_ptr[idx]`, wait, and return
`host_counts`.  A `const` method: the struct and the device buffer are
unchanged. -/
def OutputCounter.get_counts (c : OutputCounter) (dev : Device) :
    Option (List Nat × OutputCounter × Device) :=
  match c.d_ptr with
  | none => none
  | some p =>
    match memLookup dev.mem p with
    | none => none
    | some buf =>
      match copyKernel buf (List.range c.N) (List.replicate c.N 0) with
      | some host => some (host, c, dev)
      | none => none

/-- `OutputCounter::get_add_output(index)`: one atomic `fetch_add(1)` on
`d_ptr[index]`, returning the prior value.  No bounds check is performed by
the code; an out-of-range index, like a null or dangling `d_ptr`, is UB
(`none`). -/
def OutputCounter.get_add_output (c : OutputCounter) (dev : Device)
    (index : Nat) : Option (Nat × OutputCounter × Device) :=
  match c.d_ptr with
  | none => none
  | some p =>
    match memLookup dev.mem p with
    | none => none
    | some buf =>
      match fetch_add buf index with
      | some (v, buf') => some (v, c, { dev with mem := memUpdate dev.mem p buf' })
      | none => none

/-- A set of concurrent `get_add_output` calls on the same (bitwise copies of
the same) counter, folded over a serialization schedule `sched` of target
indices.  Returns the final device state and the values returned to the
callers in schedule order. -/
def runCalls (c : OutputCounter) : Device → List Nat → Option (Device × List Nat)
  | dev, [] => some (dev, [])
  | dev, i :: sched =>
    match c.get_add_output dev i with
    | some (v, _, dev') =>
      match runCalls c dev' sched with
      | some (devF, rets) => some (devF, v :: rets)
      | none => none
    | none => none

/-- The driver `main` (device selection and printing aside): construct a
counter of size 4, `pre_kernel`, dispatch 1024 work items where item `idx`
calls `get_add_output(idx % 4)` (`perm` is the serialization order of the
item ids), wait, read the counts back, free the counter, and return the
counts in index order — the numbers printed one per line. -/
def mainModel (dev : Device) (junk : List Nat) (perm : List Nat) :
    Option (List Nat) :=
  match OutputCounter.construct 0 4 dev junk with
  | .error _ => none
  | .ok (c, dev1) =>
    match c.pre_kernel dev1 with
    | none => none
    | some (c2, dev2) =>
      match runCalls c2 dev2 (perm.map (· % 4)) with
      | none => none
      | some (dev3, _) =>
        match c2.get_counts dev3 with
        | none => none
        | some (counts, c3, dev4) =>
          match c3.free dev4 with
          | some _ => some counts
          | none => none

/-! ### Buffer-level kernel lemmas -/

theorem writeCell_of_lt {buf : List Nat} {i : Nat} (v : Nat) (h : i < buf.length) :
    writeCell buf i v = some (buf.set i v) := by
  simp [writeCell, h]

theorem zeroKernel_spec : ∀ (order buf : List Nat),
    (∀ i ∈ order, i < buf.length) →
    ∃ buf', zeroKernel order buf = some buf' ∧
      buf'.length = buf.length ∧
      ∀ j, buf'[j]? = if j ∈ order then some 0 else buf[j]? := by
  intro order
  induction order with
  | nil =>
    intro buf _
    exact ⟨buf, rfl, rfl, by intro j; simp⟩
  | cons i order ih =>
    intro buf h
    have hi : i < buf.length := h i (List.mem_cons_self i order)
    have hset : ∀ s ∈ order, s < (buf.set i 0).length := by
      intro s hs
      simpa using h s (List.mem_cons_of_mem i hs)
    obtain ⟨buf', heq, hlen, hget⟩ := ih (buf.set i 0) hset
    refine ⟨buf', ?_, by simpa using hlen, ?_⟩
    · simp [zeroKernel, writeCell, hi, heq]
    · intro j
      rw [hget j]
      by_cases hj : j ∈ order
      · simp [hj]
      · by_cases hji : j = i
        · subst hji
          simp [hj, List.getElem?_set_self hi]
        · simp [hj, hji, List.getElem?_set_ne (fun hh => hji hh.symm)]

theorem zeroKernel_range (N : Nat) (buf : List Nat) (h : buf.length = N) :
    zeroKernel (List.range N) buf = some (List.replicate N 0) := by
  obtain ⟨buf', heq, _, hget⟩ := zeroKernel_spec (List.range N) buf
    (by intro i hi; rw [h]; exact List.mem_range.mp hi)
  rw [heq]
  refine congrArg some (List.ext_getElem? fun j => ?_)
  rw [hget j]
  by_cases hj : j < N
  · simp [List.mem_range, hj]
  · simp only [List.mem_range, hj, if_false]
    rw [List.getElem?_eq_none (by omega), List.getElem?_eq_none (by simp; omega)]

theorem copyKernel_spec (buf : List Nat) : ∀ (order host : List Nat),
    (∀ i ∈ order, i < buf.length ∧ i < host.length) →
    ∃ host', copyKernel buf order host = some host' ∧
      host'.length = host.length ∧
      ∀ j, host'[j]? = if j ∈ order then buf[j]? else host[j]? := by
  intro order
  induction order with
  | nil =>
    intro host _
    exact ⟨host, rfl, rfl, by intro j; simp⟩
  | cons i order ih =>
    intro host h
    obtain ⟨hib, hih⟩ := h i (List.mem_cons_self i order)
    have hread : readCell buf i = some buf[i] := by
      simp [readCell, List.getElem?_eq_getElem hib]
    have hset : ∀ s ∈ order, s < buf.length ∧ s < (host.set i buf[i]).length := by
      intro s hs
      simpa using h s (List.mem_cons_of_mem i hs)
    obtain ⟨host', heq, hlen, hget⟩ := ih (host.set i buf[i]) hset
    refine ⟨host', ?_, by simpa using hlen, ?_⟩
    · simp [copyKernel, hread, writeCell, hih, heq]
    · intro j
      rw [hget j]
      by_cases hj : j ∈ order
      · simp [hj]
      · by_cases hji : j = i
        · subst hji
          simp [hj, List.getElem?_set_self hih, List.getElem?_eq_getElem hib]
        · simp [hj, hji, List.getElem?_set_ne (fun hh => hji hh.symm)]

theorem copyKernel_range (N : Nat) (buf : List Nat) (h : buf.length = N) :
    copyKernel buf (List.range N) (List.replicate N 0) = some buf := by
  obtain ⟨host', heq, _, hget⟩ := copyKernel_spec buf (List.range N) (List.replicate N 0)
    (by intro i hi; rw [h]; exact ⟨List.mem_range.mp hi, by simpa using List.mem_range.mp hi⟩)
  rw [heq]
  refine congrArg some (List.ext_getElem? fun j => ?_)
  rw [hget j]
  by_cases hj : j < N
  · simp [List.mem_range, hj]
  · simp only [List.mem_range, hj, if_false]
    rw [List.getElem?_eq_none (by simp; omega), List.getElem?_eq_none (by omega)]

theorem range_map_add_succ (b k : Nat) :
    (List.range (k + 1)).map (b + ·) = b :: (List.range k).map (b + 1 + ·) := by
  rw [List.range_succ_eq_map, List.map_cons, List.map_map]
  refine List.cons_eq_cons.mpr ⟨Nat.add_zero b, List.map_congr_left ?_⟩
  intro a _
  simp [Function.comp]
  omega

theorem runIncrements_spec : ∀ (sched buf : List Nat),
    (∀ s ∈ sched, s < buf.length) →
    ∃ bufF rets, runIncrements sched buf = some (bufF, rets) ∧
      bufF.length = buf.length ∧
      rets.length = sched.length ∧
      (∀ j, bufF[j]? = (buf[j]?).map (· + sched.count j)) ∧
      (∀ i v, buf[i]? = some v →
        retsFor i sched rets = (List.range (sched.count i)).map (v + ·)) := by
  intro sched
  induction sched with
  | nil =>
    intro buf _
    refine ⟨buf, [], rfl, rfl, rfl, ?_, ?_⟩
    · intro j; cases buf[j]? <;> simp
    · intro i v _; simp [retsFor]
  | cons s sched ih =>
    intro buf h
    have hs : s < buf.length := h s (List.mem_cons_self s sched)
    have hread : readCell buf s = some buf[s] := by
      simp [readCell, List.getElem?_eq_getElem hs]
    have hset : ∀ t ∈ sched, t < (buf.set s (buf[s] + 1)).length := by
      intro t ht; simpa using h t (List.mem_cons_of_mem s ht)
    obtain ⟨bufF, rets, heq, hlen, hrlen, hget, hrets⟩ := ih (buf.set s (buf[s] + 1)) hset
    refine ⟨bufF, buf[s] :: rets, ?_, by simpa using hlen, by simp [hrlen], ?_, ?_⟩
    · simp [runIncrements, fetch_add, hread, heq]
    · intro j
      rw [hget j]
      by_cases hj : j = s
      · subst hj
        rw [List.getElem?_set_self hs, List.getElem?_eq_getElem hs]
        simp [List.count_cons]
        omega
      · have hsj : ¬s = j := fun hh => hj hh.symm
        rw [List.getElem?_set_ne hsj]
        have : (s :: sched).count j = sched.count j := by
          simp [List.count_cons, hsj]
        rw [this]
    · intro i v hv
      by_cases hsi : s = i
      · subst hsi
        have hvv : v = buf[s] := by
          rw [List.getElem?_eq_getElem hs] at hv
          exact (Option.some_inj.mp hv).symm
        subst hvv
        have h1 : (buf.set s (buf[s] + 1))[s]? = some (buf[s] + 1) :=
          List.getElem?_set_self hs
        have hr := hrets s (buf[s] + 1) h1
        have hcount : (s :: sched).count s = sched.count s + 1 := by
          simp [List.count_cons]
        rw [hcount, range_map_add_succ]
        simp [retsFor, hr]
      · have h1 : (buf.set s (buf[s] + 1))[i]? = some v := by
          rw [List.getElem?_set_ne hsi]; exact hv
        have hr := hrets i v h1
        have hcount : (s :: sched).count i = sched.count i := by
          simp [List.count_cons, hsi]
        rw [hcount]
        simp [retsFor, hsi, hr]

/-! ### Memory-model lemmas -/

theorem memLookup_memUpdate_self : ∀ (m : List (Nat × List Nat)) (p : Nat)
    (b b₀ : List Nat), memLookup m p = some b₀ →
    memLookup (memUpdate m p b) p = some b := by
  intro m
  induction m with
  | nil => intro p b b₀ h; simp [memLookup] at h
  | cons qb rest ih =>
    intro p b b₀ h
    obtain ⟨q, b'⟩ := qb
    by_cases hq : q = p
    · subst hq
      simp [memUpdate, memLookup]
    · have hpq : ¬p = q := fun hh => hq hh.symm
      simp [memLookup, hpq] at h
      simp [memUpdate, hq, memLookup, hpq]
      exact ih p b b₀ h

theorem memLookup_memUpdate_ne : ∀ (m : List (Nat × List Nat)) (p q : Nat)
    (b : List Nat), q ≠ p → memLookup (memUpdate m p b) q = memLookup m q := by
  intro m
  induction m with
  | nil => intro p q b _; simp [memUpdate]
  | cons rb rest ih =>
    intro p q b hqp
    obtain ⟨r, b'⟩ := rb
    by_cases hr : r = p
    · subst hr
      simp [memUpdate, memLookup, fun hh : q = r => hqp hh]
    · simp [memUpdate, hr, memLookup, ih p q b hqp]

theorem memUpdate_self : ∀ (m : List (Nat × List Nat)) (p : Nat) (b : List Nat),
    memLookup m p = some b → memUpdate m p b = m := by
  intro m
  induction m with
  | nil => intro p b h; simp [memLookup] at h
  | cons qb rest ih =>
    intro p b h
    obtain ⟨q, b'⟩ := qb
    by_cases hq : p = q
    · subst hq
      simp [memLookup] at h
      simp [memUpdate, h]
    · have hqp : ¬q = p := fun hh => hq hh.symm
      simp [memLookup, hq] at h
      simp [memUpdate, hqp, ih p b h]

theorem memUpdate_memUpdate : ∀ (m : List (Nat × List Nat)) (p : Nat)
    (b₁ b₂ : List Nat), memUpdate (memUpdate m p b₁) p b₂ = memUpdate m p b₂ := by
  intro m
  induction m with
  | nil => intro p b₁ b₂; simp [memUpdate]
  | cons qb rest ih =>
    intro p b₁ b₂
    obtain ⟨q, b'⟩ := qb
    by_cases hq : q = p
    · subst hq
      simp [memUpdate]
    · simp [memUpdate, hq, ih]

theorem memLookup_memRemove_self : ∀ (m : List (Nat × List Nat)) (p : Nat),
    memLookup (memRemove m p) p = none := by
  intro m
  induction m with
  | nil => intro p; simp [memRemove, memLookup]
  | cons qb rest ih =>
    intro p
    obtain ⟨q, b⟩ := qb
    by_cases hq : q = p
    · subst hq
      simp [memRemove, ih]
    · have hpq : ¬p = q := fun hh => hq hh.symm
      simp [memRemove, hq, memLookup, hpq, ih]

theorem memLookup_memRemove_ne : ∀ (m : List (Nat × List Nat)) (p q : Nat),
    q ≠ p → memLookup (memRemove m p) q = memLookup m q := by
  intro m
  induction m with
  | nil => intro p q _; simp [memRemove]
  | cons rb rest ih =>
    intro p q hqp
    obtain ⟨r, b⟩ := rb
    by_cases hr : r = p
    · subst hr
      simp [memRemove, memLookup, fun hh : q = r => hqp hh, ih r q hqp]
    · simp [memRemove, hr, memLookup, ih p q hqp]

/-! ### Allocator lemmas -/

theorem le_foldr_max : ∀ (l : List Nat) (a : Nat), a ∈ l → a ≤ l.foldr max 0
  | b :: l, a, h => by
    rcases List.mem_cons.mp h with h | h
    · subst h; exact le_max_left _ _
    · exact le_trans (le_foldr_max l a h) (le_max_right _ _)

theorem freshPtr_not_key (dev : Device) : ∀ pb ∈ dev.mem, pb.1 ≠ freshPtr dev := by
  intro pb hpb
  have : pb.1 ≤ (dev.mem.map Prod.fst).foldr max 0 :=
    le_foldr_max _ _ (List.mem_map_of_mem Prod.fst hpb)
  simp only [freshPtr]
  omega

theorem memLookup_append_fresh : ∀ (m : List (Nat × List Nat)) (f : Nat)
    (blk : List Nat), (∀ pb ∈ m, pb.1 ≠ f) →
    memLookup (m ++ [(f, blk)]) f = some blk := by
  intro m
  induction m with
  | nil => intro f blk _; simp [memLookup]
  | cons qb rest ih =>
    intro f blk h
    obtain ⟨q, b⟩ := qb
    have hq : q ≠ f := h (q, b) (List.mem_cons_self _ _)
    have hfq : ¬f = q := fun hh => hq hh.symm
    simp only [List.cons_append, memLookup, hfq, if_false]
    exact ih f blk (fun pb hpb => h pb (List.mem_cons_of_mem _ hpb))

theorem padTo_length (n : Nat) (l : List Nat) : (padTo n l).length = n := by
  simp [padTo]

/-! ### Operation-level specifications -/

theorem construct_ok (qid N : Nat) (dev : Device) (junk : List Nat)
    (h : devUsed dev + N ≤ dev.capacity) :
    OutputCounter.construct qid N dev junk =
      .ok ({ queue := qid, N := N, d_ptr := some (freshPtr dev) },
           { dev with mem := dev.mem ++ [(freshPtr dev, padTo N junk)] }) := by
  simp [OutputCounter.construct, malloc_device, h]

theorem construct_lookup (dev : Device) (N : Nat) (junk : List Nat) :
    memLookup (dev.mem ++ [(freshPtr dev, padTo N junk)]) (freshPtr dev) =
      some (padTo N junk) :=
  memLookup_append_fresh dev.mem (freshPtr dev) _ (freshPtr_not_key dev)

theorem pre_kernel_spec (c : OutputCounter) (dev : Device) (p : Nat)
    (buf : List Nat) (hp : c.d_ptr = some p)
    (hb : memLookup dev.mem p = some buf) (hlen : buf.length = c.N) :
    c.pre_kernel dev =
      some (c, { dev with mem := memUpdate dev.mem p (List.replicate c.N 0) }) := by
  simp [OutputCounter.pre_kernel, hp, hb, zeroKernel_range c.N buf hlen]

theorem get_counts_spec (c : OutputCounter) (dev : Device) (p : Nat)
    (buf : List Nat) (hp : c.d_ptr = some p)
    (hb : memLookup dev.mem p = some buf) (hlen : buf.length = c.N) :
    c.get_counts dev = some (buf, c, dev) := by
  simp [OutputCounter.get_counts, hp, hb, copyKernel_range c.N buf hlen]

theorem get_add_output_spec (c : OutputCounter) (dev : Device) (p index : Nat)
    (buf : List Nat) (v : Nat) (hp : c.d_ptr = some p)
    (hb : memLookup dev.mem p = some buf) (hv : buf[index]? = some v) :
    c.get_add_output dev index =
      some (v, c, { dev with mem := memUpdate dev.mem p (buf.set index (v + 1)) }) := by
  simp [OutputCounter.get_add_output, hp, hb, fetch_add, readCell, hv]

theorem free_spec (c : OutputCounter) (dev : Device) (p : Nat)
    (hp : c.d_ptr = some p) (hlive : (memLookup dev.mem p).isSome) :
    c.free dev = some ({ c with d_ptr := none },
      { dev with mem := memRemove dev.mem p }) := by
  obtain ⟨b, hb⟩ := Option.isSome_iff_exists.mp hlive
  simp [OutputCounter.free, hp, sycl_free, hb]

/-! ### Bridge: concurrent calls on the counter vs the raw-buffer schedule -/

theorem runCalls_eq_runIncrements : ∀ (sched : List Nat) (c : OutputCounter)
    (dev : Device) (p : Nat) (buf bufF rets : List Nat),
    c.d_ptr = some p → memLookup dev.mem p = some buf →
    runIncrements sched buf = some (bufF, rets) →
    runCalls c dev sched = some ({ dev with mem := memUpdate dev.mem p bufF }, rets) := by
  intro sched
  induction sched with
  | nil =>
    intro c dev p buf bufF rets hp hb hrun
    simp only [runIncrements, Option.some_inj, Prod.mk.injEq] at hrun
    obtain ⟨h1, h2⟩ := hrun
    subst h1; subst h2
    simp [runCalls, memUpdate_self dev.mem p buf hb]
  | cons i sched ih =>
    intro c dev p buf bufF rets hp hb hrun
    cases hbv : buf[i]? with
    | none => simp [runIncrements, fetch_add, readCell, hbv] at hrun
    | some v =>
      cases hr : runIncrements sched (buf.set i (v + 1)) with
      | none => simp [runIncrements, fetch_add, readCell, hbv, hr] at hrun
      | some br =>
        obtain ⟨bufF', rets'⟩ := br
        have hrr : bufF' = bufF ∧ v :: rets' = rets := by
          simp only [runIncrements, fetch_add, readCell, hbv, hr,
            Option.some_inj, Prod.mk.injEq] at hrun
          exact hrun
        obtain ⟨hF, hR⟩ := hrr
        subst hF; subst hR
        have hstep := get_add_output_spec c dev p i buf v hp hb hbv
        have hb1 : memLookup (memUpdate dev.mem p (buf.set i (v + 1))) p =
            some (buf.set i (v + 1)) :=
          memLookup_memUpdate_self dev.mem p _ buf hb
        have hrec := ih c { dev with mem := memUpdate dev.mem p (buf.set i (v + 1)) }
          p (buf.set i (v + 1)) bufF' rets' hp hb1 hr
        simp only [runCalls, hstep, hrec, memUpdate_memUpdate]

/-! ### Counting the demo schedule -/

theorem ceil_div_step (c i W : Nat) (hc : 0 < c) (hi : i < c) :
    (W + 1 - i + c - 1) / c =
      (W - i + c - 1) / c + (if W % c = i then 1 else 0) := by
  rcases Nat.lt_or_ge W i with hWi | hWi
  · have h0 : W + 1 - i = 0 := by omega
    have h1 : W - i = 0 := by omega
    have hne : ¬W % c = i := by
      have := Nat.mod_eq_of_lt (lt_trans hWi hi)
      omega
    rw [h0, h1, if_neg hne]
    simp
  · have hnum : W + 1 - i + c - 1 = (W - i + c - 1) + 1 := by omega
    rw [hnum, Nat.succ_div]
    congr 1
    have hd : c ∣ (W - i + c - 1) + 1 ↔ c ∣ W - i := by
      have he : (W - i + c - 1) + 1 = (W - i) + c := by omega
      rw [he]
      exact ⟨fun h => by simpa using Nat.dvd_sub' h (dvd_refl c),
             fun h => Nat.dvd_add h (dvd_refl c)⟩
    have hm : W % c = i ↔ c ∣ W - i := by
      constructor
      · intro h
        have hmods : i % c = W % c := by rw [Nat.mod_eq_of_lt hi, h]
        exact (Nat.modEq_iff_dvd' hWi).mp hmods
      · intro h
        have hmods := (Nat.modEq_iff_dvd' hWi).mpr h
        have : i % c = W % c := hmods
        rw [Nat.mod_eq_of_lt hi] at this
        exact this.symm
    simp only [hd, hm]

theorem count_range_map_mod (c i : Nat) (hc : 0 < c) (hi : i < c) : ∀ W : Nat,
    ((List.range W).map (· % c)).count i = (W - i + c - 1) / c := by
  intro W
  induction W with
  | zero =>
    have h1 : c - 1 < c := by omega
    have h2 : 0 - i + c - 1 = c - 1 := by omega
    rw [h2, Nat.div_eq_of_lt h1]
    simp
  | succ W ih =>
    rw [List.range_succ, List.map_append, List.count_append, ih,
      ceil_div_step c i W hc hi]
    congr 1
    simp [List.count_cons]

/-! ### The demo driver end to end -/

theorem mainModel_eq (dev : Device) (junk : List Nat) (perm : List Nat)
    (hcap : devUsed dev + 4 ≤ dev.capacity)
    (hperm : perm.Perm (List.range 1024)) :
    mainModel dev junk perm = some [256, 256, 256, 256] := by
  have hb0len : (padTo 4 junk).length = 4 := padTo_length 4 junk
  have hcon := construct_ok 0 4 dev junk hcap
  have hlook1 := construct_lookup dev 4 junk
  have hpre := pre_kernel_spec
    { queue := 0, N := 4, d_ptr := some (freshPtr dev) }
    { dev with mem := dev.mem ++ [(freshPtr dev, padTo 4 junk)] }
    (freshPtr dev) (padTo 4 junk) rfl hlook1 hb0len
  have hlook2 : memLookup
      (memUpdate (dev.mem ++ [(freshPtr dev, padTo 4 junk)]) (freshPtr dev)
        (List.replicate 4 0)) (freshPtr dev) = some (List.replicate 4 0) :=
    memLookup_memUpdate_self _ _ _ _ hlook1
  have hsched : ∀ s ∈ perm.map (· % 4), s < (List.replicate 4 (0 : Nat)).length := by
    intro s hs
    simp only [List.length_replicate]
    obtain ⟨x, _, hx⟩ := List.mem_map.mp hs
    omega
  obtain ⟨bufF, rets, hrun, hlenF, _, hget, _⟩ :=
    runIncrements_spec (perm.map (· % 4)) (List.replicate 4 0) hsched
  have hcount : ∀ j, j < 4 → (perm.map (· % 4)).count j = 256 := by
    intro j hj
    have h1 : (perm.map (· % 4)).count j = ((List.range 1024).map (· % 4)).count j :=
      (hperm.map (· % 4)).count_eq j
    rw [h1, count_range_map_mod 4 j (by omega) hj 1024]
    omega
  have hbufF : bufF = [256, 256, 256, 256] := by
    have h4 : bufF = List.replicate 4 256 := by
      refine List.ext_getElem? fun j => ?_
      rw [hget j]
      by_cases hj : j < 4
      · rw [List.getElem?_replicate_of_lt hj, List.getElem?_replicate_of_lt hj,
          hcount j hj]
        simp
      · rw [List.getElem?_eq_none (by simpa using hj),
          List.getElem?_eq_none (by simpa using hj)]
        simp
    rw [h4]
    rfl
  subst hbufF
  have hpre' : OutputCounter.pre_kernel
      { queue := 0, N := 4, d_ptr := some (freshPtr dev) }
      (Device.mk dev.capacity (dev.mem ++ [(freshPtr dev, padTo 4 junk)])) =
      some ({ queue := 0, N := 4, d_ptr := some (freshPtr dev) },
        Device.mk dev.capacity
          (memUpdate (dev.mem ++ [(freshPtr dev, padTo 4 junk)]) (freshPtr dev)
            (List.replicate 4 0))) := hpre
  have hcalls := runCalls_eq_runIncrements (perm.map (· % 4))
    { queue := 0, N := 4, d_ptr := some (freshPtr dev) }
    (Device.mk dev.capacity
      (memUpdate (dev.mem ++ [(freshPtr dev, padTo 4 junk)]) (freshPtr dev)
        (List.replicate 4 0)))
    (freshPtr dev) (List.replicate 4 0) [256, 256, 256, 256] rets rfl hlook2 hrun
  have hcalls' : runCalls { queue := 0, N := 4, d_ptr := some (freshPtr dev) }
      (Device.mk dev.capacity
        (memUpdate (dev.mem ++ [(freshPtr dev, padTo 4 junk)]) (freshPtr dev)
          (List.replicate 4 0)))
      (perm.map (· % 4)) =
      some (Device.mk dev.capacity
        (memUpdate (memUpdate (dev.mem ++ [(freshPtr dev, padTo 4 junk)])
          (freshPtr dev) (List.replicate 4 0)) (freshPtr dev) [256, 256, 256, 256]),
        rets) := hcalls
  have hlook3 : memLookup
      (memUpdate (memUpdate (dev.mem ++ [(freshPtr dev, padTo 4 junk)])
        (freshPtr dev) (List.replicate 4 0)) (freshPtr dev)
        [256, 256, 256, 256]) (freshPtr dev) = some [256, 256, 256, 256] :=
    memLookup_memUpdate_self _ _ _ _ hlook2
  have hgc := get_counts_spec
    { queue := 0, N := 4, d_ptr := some (freshPtr dev) }
    (Device.mk dev.capacity
      (memUpdate (memUpdate (dev.mem ++ [(freshPtr dev, padTo 4 junk)])
        (freshPtr dev) (List.replicate 4 0)) (freshPtr dev) [256, 256, 256, 256]))
    (freshPtr dev) [256, 256, 256, 256] rfl hlook3 rfl
  have hfree := free_spec
    { queue := 0, N := 4, d_ptr := some (freshPtr dev) }
    (Device.mk dev.capacity
      (memUpdate (memUpdate (dev.mem ++ [(freshPtr dev, padTo 4 junk)])
        (freshPtr dev) (List.replicate 4 0)) (freshPtr dev) [256, 256, 256, 256]))
    (freshPtr dev) rfl (by rw [hlook3]; rfl)
  simp only [mainModel, hcon, hpre', hcalls', hgc, hfree]

/-! ### Claims -/

/-- Claim C1: for every valid (not-released) instance and every index in
[0, count), get_add_output(index) atomically increments the cell at index by
exactly one and returns the value that cell held immediately prior to the
increment; no other cell — in this buffer or any other live allocation — is
modified.  (The call is the one indivisible read-modify-write step of the
model, which is what atomicity means here.) -/
theorem claim_C1_get_add_output (c : OutputCounter) (dev : Device)
    (p index : Nat) (buf : List Nat) (hp : c.d_ptr = some p)
    (hb : memLookup dev.mem p = some buf) (hlen : buf.length = c.N)
    (hidx : index < c.N) :
    ∃ prior, buf[index]? = some prior ∧
      c.get_add_output dev index =
        some (prior, c,
          Device.mk dev.capacity (memUpdate dev.mem p (buf.set index (prior + 1)))) ∧
      (buf.set index (prior + 1))[index]? = some (prior + 1) ∧
      (∀ j, j ≠ index → (buf.set index (prior + 1))[j]? = buf[j]?) ∧
      (∀ q, q ≠ p →
        memLookup (memUpdate dev.mem p (buf.set index (prior + 1))) q =
          memLookup dev.mem q) := by
  have hlt : index < buf.length := by omega
  refine ⟨buf[index], List.getElem?_eq_getElem hlt, ?_, ?_, ?_, ?_⟩
  · exact get_add_output_spec c dev p index buf buf[index] hp hb
      (List.getElem?_eq_getElem hlt)
  · exact List.getElem?_set_self hlt
  · intro j hj
    exact List.getElem?_set_ne (fun hh => hj hh.symm)
  · intro q hq
    exact memLookup_memUpdate_ne dev.mem p q _ hq

/-- Witness for C1 at a concrete instance: counter of size 2 over the live
pointer 1, cell contents [5, 7], increment index 1. -/
theorem claim_C1_witness :
    ∃ prior, ([5, 7] : List Nat)[1]? = some prior ∧
      (OutputCounter.mk 0 2 (some 1)).get_add_output (Device.mk 10 [(1, [5, 7])]) 1 =
        some (prior, OutputCounter.mk 0 2 (some 1),
          Device.mk 10 (memUpdate [(1, [5, 7])] 1 (([5, 7] : List Nat).set 1 (prior + 1)))) ∧
      (([5, 7] : List Nat).set 1 (prior + 1))[1]? = some (prior + 1) ∧
      (∀ j, j ≠ 1 → (([5, 7] : List Nat).set 1 (prior + 1))[j]? = ([5, 7] : List Nat)[j]?) ∧
      (∀ q, q ≠ 1 →
        memLookup (memUpdate [(1, [5, 7])] 1 (([5, 7] : List Nat).set 1 (prior + 1))) q =
          memLookup [(1, [5, 7])] q) :=
  claim_C1_get_add_output (OutputCounter.mk 0 2 (some 1)) (Device.mk 10 [(1, [5, 7])])
    1 1 [5, 7] rfl (by decide) (by decide) (by decide)

/-- Claim C2: for every index `i` and every serialization schedule of
concurrent increments (starting from a cell holding zero), the values returned
to the callers that targeted `i` are exactly 0, 1, …, k−1 in serialization
order, where `k` is the number of increments on `i` — in particular a
permutation of 0..k−1 with no duplicates and no gaps, whatever the
interleaving. -/
theorem claim_C2_unique_returns (c : OutputCounter) (dev : Device) (p i : Nat)
    (buf : List Nat) (sched : List Nat) (hp : c.d_ptr = some p)
    (hb : memLookup dev.mem p = some buf)
    (hbound : ∀ s ∈ sched, s < buf.length)
    (hzero : buf[i]? = some 0) :
    ∃ devF rets, runCalls c dev sched = some (devF, rets) ∧
      retsFor i sched rets = List.range (sched.count i) ∧
      (retsFor i sched rets).Nodup ∧
      (retsFor i sched rets).Perm (List.range (sched.count i)) := by
  obtain ⟨bufF, rets, hrun, _, _, _, hrets⟩ := runIncrements_spec sched buf hbound
  have h0 := hrets i 0 hzero
  have heq : retsFor i sched rets = List.range (sched.count i) := by
    rw [h0]
    simp
  refine ⟨_, rets,
    runCalls_eq_runIncrements sched c dev p buf bufF rets hp hb hrun, heq, ?_, ?_⟩
  · rw [heq]; exact List.nodup_range _
  · rw [heq]

/-- Witness for C2 at a concrete instance: zero-filled counter of size 2,
schedule [0, 1, 0, 0] (three concurrent increments on index 0, one on 1). -/
theorem claim_C2_witness :
    ∃ devF rets,
      runCalls (OutputCounter.mk 0 2 (some 1)) (Device.mk 10 [(1, [0, 0])])
        [0, 1, 0, 0] = some (devF, rets) ∧
      retsFor 0 [0, 1, 0, 0] rets = List.range (List.count 0 [0, 1, 0, 0]) ∧
      (retsFor 0 [0, 1, 0, 0] rets).Nodup ∧
      (retsFor 0 [0, 1, 0, 0] rets).Perm (List.range (List.count 0 [0, 1, 0, 0])) :=
  claim_C2_unique_returns (OutputCounter.mk 0 2 (some 1)) (Device.mk 10 [(1, [0, 0])])
    1 0 [0, 0] [0, 1, 0, 0] rfl (by decide) (by decide) (by decide)

/-- Claim C3: after zero-fill, a bulk workload of W items indexed 0..W−1 in
which item j calls get_add_output(j mod count) leaves cell i holding exactly
⌈(W − i)/count⌉ — as a Nat expression, (W − i + count − 1) / count, which is 0
when i ≥ W — for every i in [0, count) and every serialization order; and
concretely, for count = 4 and W = 1024, the driver reads back four cells each
holding 256 and prints four lines each reading 256. -/
theorem claim_C3_workload (W cnt i : Nat) (hc : 0 < cnt) (hi : i < cnt)
    (perm : List Nat) (hperm : perm.Perm (List.range W))
    (dev : Device) (junk : List Nat) (perm' : List Nat)
    (hcap : devUsed dev + 4 ≤ dev.capacity)
    (hperm' : perm'.Perm (List.range 1024)) :
    (∃ bufF rets,
      runIncrements (perm.map (· % cnt)) (List.replicate cnt 0) = some (bufF, rets) ∧
      bufF[i]? = some ((W - i + cnt - 1) / cnt)) ∧
    mainModel dev junk perm' = some [256, 256, 256, 256] := by
  constructor
  · have hbound : ∀ s ∈ perm.map (· % cnt), s < (List.replicate cnt (0 : Nat)).length := by
      intro s hs
      obtain ⟨x, _, hx⟩ := List.mem_map.mp hs
      simp only [List.length_replicate]
      rw [← hx]
      exact Nat.mod_lt x hc
    obtain ⟨bufF, rets, hrun, _, _, hget, _⟩ :=
      runIncrements_spec (perm.map (· % cnt)) (List.replicate cnt 0) hbound
    refine ⟨bufF, rets, hrun, ?_⟩
    rw [hget i, List.getElem?_replicate_of_lt hi]
    have hcount : (perm.map (· % cnt)).count i = (W - i + cnt - 1) / cnt := by
      rw [(hperm.map (· % cnt)).count_eq i, count_range_map_mod cnt i hc hi W]
    simp [hcount]
  · exact mainModel_eq dev junk perm' hcap hperm'

/-- Witness for C3 at a concrete instance: W = 8, count = 4, i = 1 for the
general formula (⌈(8−1)/4⌉ = 2), and a device of capacity 100 with the
identity serialization order for the 1024-item driver workload. -/
theorem claim_C3_witness :
    (∃ bufF rets,
      runIncrements ((List.range 8).map (· % 4)) (List.replicate 4 0) =
        some (bufF, rets) ∧
      bufF[1]? = some ((8 - 1 + 4 - 1) / 4)) ∧
    mainModel (Device.mk 100 []) [] (List.range 1024) = some [256, 256, 256, 256] :=
  claim_C3_workload 8 4 1 (by decide) (by decide) (List.range 8)
    (List.Perm.refl _) (Device.mk 100 []) [] (List.range 1024) (by decide)
    (List.Perm.refl _)

/-- Claim C4: for every valid (not-released) instance, pre_kernel writes zero
to each of the count cells, so afterwards every cell in [0, count) holds zero;
and a second pre_kernel with no increments in between leaves the state exactly
as it was (idempotence). -/
theorem claim_C4_pre_kernel_zero (c : OutputCounter) (dev : Device) (p : Nat)
    (buf : List Nat) (hp : c.d_ptr = some p)
    (hb : memLookup dev.mem p = some buf) (hlen : buf.length = c.N) :
    ∃ dev', c.pre_kernel dev = some (c, dev') ∧
      memLookup dev'.mem p = some (List.replicate c.N 0) ∧
      (∀ i, i < c.N → (List.replicate c.N (0 : Nat))[i]? = some 0) ∧
      c.pre_kernel dev' = some (c, dev') := by
  refine ⟨Device.mk dev.capacity (memUpdate dev.mem p (List.replicate c.N 0)),
    pre_kernel_spec c dev p buf hp hb hlen, ?_, ?_, ?_⟩
  · exact memLookup_memUpdate_self dev.mem p _ buf hb
  · intro i hi
    exact List.getElem?_replicate_of_lt hi
  · have hb2 : memLookup (memUpdate dev.mem p (List.replicate c.N 0)) p =
        some (List.replicate c.N 0) := memLookup_memUpdate_self dev.mem p _ buf hb
    have h2 : OutputCounter.pre_kernel c
        (Device.mk dev.capacity (memUpdate dev.mem p (List.replicate c.N 0))) =
        some (c, Device.mk dev.capacity
          (memUpdate (memUpdate dev.mem p (List.replicate c.N 0)) p
            (List.replicate c.N 0))) :=
      pre_kernel_spec c _ p (List.replicate c.N 0) hp hb2 (by simp)
    rw [h2, memUpdate_memUpdate]

/-- Witness for C4 at a concrete instance: counter of size 2 over live
pointer 1, initial cell contents [5, 7]. -/
theorem claim_C4_witness :
    ∃ dev', (OutputCounter.mk 0 2 (some 1)).pre_kernel (Device.mk 10 [(1, [5, 7])]) =
        some (OutputCounter.mk 0 2 (some 1), dev') ∧
      memLookup dev'.mem 1 = some (List.replicate 2 0) ∧
      (∀ i, i < 2 → (List.replicate 2 (0 : Nat))[i]? = some 0) ∧
      (OutputCounter.mk 0 2 (some 1)).pre_kernel dev' =
        some (OutputCounter.mk 0 2 (some 1), dev') :=
  claim_C4_pre_kernel_zero (OutputCounter.mk 0 2 (some 1))
    (Device.mk 10 [(1, [5, 7])]) 1 [5, 7] rfl (by decide) (by decide)

/-- Claim C5: for every valid (not-released) instance, get_counts returns a
sequence of length exactly count whose element at position i equals the
current value of cell i for every i in [0, count) — an ordered,
index-preserving snapshot copy — and changes neither the counter nor the
device state. -/
theorem claim_C5_get_counts (c : OutputCounter) (dev : Device) (p : Nat)
    (buf : List Nat) (hp : c.d_ptr = some p)
    (hb : memLookup dev.mem p = some buf) (hlen : buf.length = c.N) :
    ∃ host, c.get_counts dev = some (host, c, dev) ∧
      host.length = c.N ∧ ∀ i, i < c.N → host[i]? = buf[i]? :=
  ⟨buf, get_counts_spec c dev p buf hp hb hlen, hlen, fun _ _ => rfl⟩

/-- Witness for C5 at a concrete instance: counter of size 2 over live
pointer 1, cell contents [5, 7]. -/
theorem claim_C5_witness :
    ∃ host, (OutputCounter.mk 0 2 (some 1)).get_counts (Device.mk 10 [(1, [5, 7])]) =
        some (host, OutputCounter.mk 0 2 (some 1), Device.mk 10 [(1, [5, 7])]) ∧
      host.length = 2 ∧ ∀ i, i < 2 → host[i]? = ([5, 7] : List Nat)[i]? :=
  claim_C5_get_counts (OutputCounter.mk 0 2 (some 1)) (Device.mk 10 [(1, [5, 7])])
    1 [5, 7] rfl (by decide) (by decide)

/-- Claim C6: free frees the device allocation and sets the handle to the
empty sentinel when the handle is valid (other allocations untouched), does
nothing when the handle is already the sentinel, and hence a second free right
after a first one is a no-op — no fault, no double-free. -/
theorem claim_C6_free (c : OutputCounter) (dev : Device) (p : Nat)
    (hp : c.d_ptr = some p) (hlive : (memLookup dev.mem p).isSome) :
    ∃ dev', c.free dev = some ({ c with d_ptr := none }, dev') ∧
      memLookup dev'.mem p = none ∧
      (∀ q, q ≠ p → memLookup dev'.mem q = memLookup dev.mem q) ∧
      OutputCounter.free { c with d_ptr := none } dev' =
        some ({ c with d_ptr := none }, dev') ∧
      (∀ c₂ : OutputCounter, c₂.d_ptr = none → c₂.free dev = some (c₂, dev)) := by
  refine ⟨Device.mk dev.capacity (memRemove dev.mem p),
    free_spec c dev p hp hlive, ?_, ?_, ?_, ?_⟩
  · exact memLookup_memRemove_self dev.mem p
  · intro q hq
    exact memLookup_memRemove_ne dev.mem p q hq
  · simp [OutputCounter.free]
  · intro c₂ h₂
    simp [OutputCounter.free, h₂]

/-- Witness for C6 at a concrete instance: counter whose handle is the live
pointer 1 on a device that also holds an unrelated allocation at pointer 2. -/
theorem claim_C6_witness :
    ∃ dev', (OutputCounter.mk 0 2 (some 1)).free
        (Device.mk 10 [(1, [5, 7]), (2, [9])]) =
        some ({ OutputCounter.mk 0 2 (some 1) with d_ptr := none }, dev') ∧
      memLookup dev'.mem 1 = none ∧
      (∀ q, q ≠ 1 → memLookup dev'.mem q =
        memLookup (Device.mk 10 [(1, [5, 7]), (2, [9])]).mem q) ∧
      OutputCounter.free { OutputCounter.mk 0 2 (some 1) with d_ptr := none } dev' =
        some ({ OutputCounter.mk 0 2 (some 1) with d_ptr := none }, dev') ∧
      (∀ c₂ : OutputCounter, c₂.d_ptr = none →
        c₂.free (Device.mk 10 [(1, [5, 7]), (2, [9])]) =
          some (c₂, Device.mk 10 [(1, [5, 7]), (2, [9])])) :=
  claim_C6_free (OutputCounter.mk 0 2 (some 1))
    (Device.mk 10 [(1, [5, 7]), (2, [9])]) 1 rfl (by decide)

/-- Claim C7: construction fails with an AllocationError when the device
cannot satisfy the allocation request (out of device memory), and the error
propagates to the caller — the constructor contains no handling that could
swallow it.  (`sycl::malloc_device` is external runtime code, modelled here
as a fallible allocator per the SYCL error contract.) -/
theorem claim_C7_alloc_error (qid N : Nat) (dev : Device) (junk : List Nat)
    (h : dev.capacity < devUsed dev + N) :
    OutputCounter.construct qid N dev junk = .error .AllocationError := by
  have hn : ¬devUsed dev + N ≤ dev.capacity := by omega
  simp [OutputCounter.construct, malloc_device, hn]

/-- Witness for C7 at a concrete instance: requesting 5 cells on a device of
capacity 3. -/
theorem claim_C7_witness :
    OutputCounter.construct 0 5 (Device.mk 3 []) [] = .error .AllocationError :=
  claim_C7_alloc_error 0 5 (Device.mk 3 []) [] (by decide)

/-- Claim C8: for count = 0, construction succeeds, zero-fill is a no-op,
readback is a no-op returning the empty sequence, and release succeeds. -/
theorem claim_C8_count_zero (qid : Nat) (dev : Device) (junk : List Nat)
    (hcap : devUsed dev ≤ dev.capacity) :
    ∃ c dev1, OutputCounter.construct qid 0 dev junk = .ok (c, dev1) ∧
      c.N = 0 ∧
      c.pre_kernel dev1 = some (c, dev1) ∧
      c.get_counts dev1 = some ([], c, dev1) ∧
      (c.free dev1).isSome := by
  have hcon := construct_ok qid 0 dev junk (by omega)
  have hlook := construct_lookup dev 0 junk
  refine ⟨{ queue := qid, N := 0, d_ptr := some (freshPtr dev) },
    Device.mk dev.capacity (dev.mem ++ [(freshPtr dev, padTo 0 junk)]),
    hcon, rfl, ?_, ?_, ?_⟩
  · have hpre : OutputCounter.pre_kernel
        { queue := qid, N := 0, d_ptr := some (freshPtr dev) }
        (Device.mk dev.capacity (dev.mem ++ [(freshPtr dev, padTo 0 junk)])) =
        some ({ queue := qid, N := 0, d_ptr := some (freshPtr dev) },
          Device.mk dev.capacity
            (memUpdate (dev.mem ++ [(freshPtr dev, padTo 0 junk)]) (freshPtr dev)
              (padTo 0 junk))) :=
      pre_kernel_spec _ _ (freshPtr dev) (padTo 0 junk) rfl hlook (padTo_length 0 junk)
    rw [hpre, memUpdate_self _ _ _ hlook]
  · exact get_counts_spec _ _ (freshPtr dev) (padTo 0 junk) rfl hlook
      (padTo_length 0 junk)
  · rw [free_spec _ _ (freshPtr dev) rfl (by rw [hlook]; rfl)]
    rfl

/-- Witness for C8 at a concrete instance: a device of capacity 10 with no
live allocations, junk contents [3]. -/
theorem claim_C8_witness :
    ∃ c dev1, OutputCounter.construct 7 0 (Device.mk 10 []) [3] = .ok (c, dev1) ∧
      c.N = 0 ∧
      c.pre_kernel dev1 = some (c, dev1) ∧
      c.get_counts dev1 = some ([], c, dev1) ∧
      (c.free dev1).isSome :=
  claim_C8_count_zero 7 (Device.mk 10 []) [3] (by decide)

/-- Claim C9: under the precondition that index lies in [0, count) and the
instance has not been released, the single memory access of get_add_output is
within the allocated buffer — the read is in bounds and the out-of-bounds
(`none`) branch of the embedding is unreachable.  The precondition is a
hypothesis of this theorem, not a runtime test: the code performs no bounds
check. -/
theorem claim_C9_in_bounds (c : OutputCounter) (dev : Device) (p index : Nat)
    (buf : List Nat) (hp : c.d_ptr = some p)
    (hb : memLookup dev.mem p = some buf) (hlen : buf.length = c.N)
    (hidx : index < c.N) :
    (readCell buf index).isSome ∧ (fetch_add buf index).isSome ∧
      (c.get_add_output dev index).isSome := by
  have hlt : index < buf.length := by omega
  have hv : buf[index]? = some buf[index] := List.getElem?_eq_getElem hlt
  refine ⟨?_, ?_, ?_⟩
  · rw [readCell, hv]
    rfl
  · simp [fetch_add, readCell, hv]
  · rw [get_add_output_spec c dev p index buf buf[index] hp hb hv]
    rfl

/-- Witness for C9 at a concrete instance: counter of size 2 over live
pointer 1, cell contents [5, 7], index 1. -/
theorem claim_C9_witness :
    (readCell [5, 7] 1).isSome ∧ (fetch_add [5, 7] 1).isSome ∧
      ((OutputCounter.mk 0 2 (some 1)).get_add_output
        (Device.mk 10 [(1, [5, 7])]) 1).isSome :=
  claim_C9_in_bounds (OutputCounter.mk 0 2 (some 1)) (Device.mk 10 [(1, [5, 7])])
    1 1 [5, 7] rfl (by decide) (by decide) (by decide)

/-- Claim C10: no operation other than free modifies the entity's own fields —
pre_kernel, get_counts and get_add_output return the very same counter value
(queue, N, d_ptr unchanged), and free keeps queue and N, changing only d_ptr
to the null sentinel. -/
theorem claim_C10_frame (c : OutputCounter) (dev : Device) (p index : Nat)
    (buf : List Nat) (hp : c.d_ptr = some p)
    (hb : memLookup dev.mem p = some buf) (hlen : buf.length = c.N)
    (hidx : index < c.N) :
    (∃ dev', c.pre_kernel dev = some (c, dev')) ∧
    c.get_counts dev = some (buf, c, dev) ∧
    (∃ v dev', c.get_add_output dev index = some (v, c, dev')) ∧
    (∃ dev', c.free dev = some (OutputCounter.mk c.queue c.N none, dev')) := by
  have hlt : index < buf.length := by omega
  have hv : buf[index]? = some buf[index] := List.getElem?_eq_getElem hlt
  refine ⟨⟨_, pre_kernel_spec c dev p buf hp hb hlen⟩,
    get_counts_spec c dev p buf hp hb hlen,
    ⟨buf[index], _, get_add_output_spec c dev p index buf buf[index] hp hb hv⟩, ?_⟩
  refine ⟨Device.mk dev.capacity (memRemove dev.mem p), ?_⟩
  rw [free_spec c dev p hp (by rw [hb]; rfl)]

/-- Witness for C10 at a concrete instance: counter of size 2 over live
pointer 1, cell contents [5, 7], index 1. -/
theorem claim_C10_witness :
    (∃ dev', (OutputCounter.mk 0 2 (some 1)).pre_kernel (Device.mk 10 [(1, [5, 7])]) =
      some (OutputCounter.mk 0 2 (some 1), dev')) ∧
    (OutputCounter.mk 0 2 (some 1)).get_counts (Device.mk 10 [(1, [5, 7])]) =
      some ([5, 7], OutputCounter.mk 0 2 (some 1), Device.mk 10 [(1, [5, 7])]) ∧
    (∃ v dev', (OutputCounter.mk 0 2 (some 1)).get_add_output
      (Device.mk 10 [(1, [5, 7])]) 1 = some (v, OutputCounter.mk 0 2 (some 1), dev')) ∧
    (∃ dev', (OutputCounter.mk 0 2 (some 1)).free (Device.mk 10 [(1, [5, 7])]) =
      some (OutputCounter.mk 0 2 none, dev')) :=
  claim_C10_frame (OutputCounter.mk 0 2 (some 1)) (Device.mk 10 [(1, [5, 7])])
    1 1 [5, 7] rfl (by decide) (by decide) (by decide)
